import Mathlib

/-!
# Verification of the infinite-scroll client's cache, fetch and scroll logic

A shallow embedding of the logic in `src/services/api.ts` (the fetch client
`UserService` and the caching decorator `CachingUserService`), the debounce
helper in `src/utils/debounce.ts`, and the `loadUsers`/`retryLoading` state
transitions of `src/components/UserList.vue`.

Machine conventions:
* JavaScript `Map<string, User[]>` is an association list with unique keys;
  `set`/`get`/`delete`/`has`/`clear` are modelled on the list.
* `setTimeout` callbacks are explicit pending-timer records `(fireTime, key)`;
  the event loop firing a timer is a separate transition (`fireTimer`).
* Thrown JavaScript values are either `Error` instances or arbitrary
  non-`Error` values (`JsValue`); an `async` function's outcome is
  `Except JsError (Option _)` — `error` for a rejected promise,
  `ok none` for a resolution to `undefined`.
* `User` records are pass-through data for every function modelled here, so
  all definitions are parametric in the user type `U`.
-/

set_option autoImplicit false

namespace InfiniteScroll

/-! ## Decimal rendering of numbers

The cache key and the HTTP error message interpolate numbers into strings
(template literals).  `toString (n : Nat)` in Lean is `Nat.repr`; we prove
the two facts the claims need: its characters are never `'_'`, and it is
injective.  Both go through `digitsOf`, a fuel-free reformulation of
`Nat.toDigits 10`.
-/

/-- Most-significant-first decimal digit characters of `n`. -/
def digitsOf (n : Nat) : List Char :=
  if h : n < 10 then [Nat.digitChar n]
  else
    have : n / 10 < n := Nat.div_lt_self (by omega) (by omega)
    digitsOf (n / 10) ++ [Nat.digitChar (n % 10)]

theorem toDigitsCore_eq_digitsOf (fuel : Nat) :
    ∀ (n : Nat) (acc : List Char), n < fuel →
      Nat.toDigitsCore 10 fuel n acc = digitsOf n ++ acc := by
  induction fuel with
  | zero => intro n acc h; omega
  | succ fuel ih =>
    intro n acc h
    rw [digitsOf]
    by_cases h10 : n < 10
    · have hdiv : n / 10 = 0 := Nat.div_eq_of_lt h10
      have hmod : n % 10 = n := Nat.mod_eq_of_lt h10
      simp only [Nat.toDigitsCore, hdiv, if_true, h10, dif_pos, hmod]
      simp
    · have hdiv : ¬ n / 10 = 0 := by omega
      have hlt : n / 10 < fuel := by
        have : n / 10 < n := Nat.div_lt_self (by omega) (by omega)
        omega
      simp only [Nat.toDigitsCore, hdiv, if_false, h10, dif_neg, not_false_iff]
      rw [ih (n / 10) (Nat.digitChar (n % 10) :: acc) hlt]
      simp

theorem repr_eq_digitsOf (n : Nat) : Nat.repr n = (digitsOf n).asString := by
  show (Nat.toDigits 10 n).asString = (digitsOf n).asString
  rw [Nat.toDigits, toDigitsCore_eq_digitsOf (n + 1) n [] (Nat.lt_succ_self n),
    List.append_nil]

/-- The numeric value of a decimal digit character. -/
def charVal (c : Char) : Nat := c.toNat - 48

/-- Reading a most-significant-first digit string back into a number. -/
def parseDigits (l : List Char) : Nat :=
  l.foldl (fun a c => a * 10 + charVal c) 0

theorem charVal_digitChar (m : Nat) (h : m < 10) :
    charVal (Nat.digitChar m) = m := by
  interval_cases m <;> rfl

theorem digitChar_ne_underscore (m : Nat) (h : m < 10) :
    Nat.digitChar m ≠ '_' := by
  interval_cases m <;> decide

theorem foldl_digitsOf (n : Nat) : ∀ a : Nat,
    (digitsOf n).foldl (fun a c => a * 10 + charVal c) a =
      a * 10 ^ (digitsOf n).length + n := by
  induction n using Nat.strong_induction_on with
  | _ n ih =>
    intro a
    rw [digitsOf]
    by_cases h : n < 10
    · simp only [h, dif_pos, List.foldl, List.length, charVal_digitChar n h]
      simp [pow_one]
    · have hpos : 0 < n := by omega
      have hlt : n / 10 < n := Nat.div_lt_self hpos (by omega)
      simp only [h, dif_neg, not_false_iff, List.foldl_append, List.foldl,
        List.length_append, List.length]
      rw [ih (n / 10) hlt a, charVal_digitChar (n % 10) (Nat.mod_lt n (by omega))]
      have hdm : n / 10 * 10 + n % 10 = n := by omega
      calc (a * 10 ^ (digitsOf (n / 10)).length + n / 10) * 10 + n % 10
          = a * (10 ^ (digitsOf (n / 10)).length * 10) + (n / 10 * 10 + n % 10) := by
            ring
        _ = a * 10 ^ ((digitsOf (n / 10)).length + (0 + 1)) + n := by
            rw [hdm]
            norm_num [pow_succ]

theorem parseDigits_digitsOf (n : Nat) : parseDigits (digitsOf n) = n := by
  have := foldl_digitsOf n 0
  simpa [parseDigits] using this

theorem digitsOf_injective (m n : Nat) (h : digitsOf m = digitsOf n) : m = n := by
  have := congrArg parseDigits h
  rwa [parseDigits_digitsOf, parseDigits_digitsOf] at this

theorem underscore_not_mem_digitsOf (n : Nat) : '_' ∉ digitsOf n := by
  induction n using Nat.strong_induction_on with
  | _ n ih =>
    rw [digitsOf]
    by_cases h : n < 10
    · simp only [h, dif_pos, List.mem_singleton]
      exact fun heq => digitChar_ne_underscore n h heq.symm
    · have hpos : 0 < n := by omega
      have hlt : n / 10 < n := Nat.div_lt_self hpos (by omega)
      simp only [h, dif_neg, not_false_iff, List.mem_append, List.mem_singleton]
      intro hmem
      rcases hmem with hmem | hmem
      · exact ih (n / 10) hlt hmem
      · exact digitChar_ne_underscore (n % 10) (Nat.mod_lt n (by omega)) hmem.symm

theorem repr_injective (m n : Nat) (h : Nat.repr m = Nat.repr n) : m = n := by
  rw [repr_eq_digitsOf, repr_eq_digitsOf] at h
  exact digitsOf_injective m n (congrArg String.data h)

/-- Splitting a list at an `'_'` separator is unambiguous when neither left
part contains `'_'`. -/
theorem append_underscore_inj : ∀ (a c b d : List Char), '_' ∉ a → '_' ∉ c →
    a ++ '_' :: b = c ++ '_' :: d → a = c ∧ b = d := by
  intro a
  induction a with
  | nil =>
    intro c b d _ hc h
    cases c with
    | nil => simpa using h
    | cons y ys =>
      simp only [List.nil_append, List.cons_append, List.cons.injEq] at h
      exact absurd (List.mem_cons_self y ys) (h.1 ▸ hc)
  | cons x xs ih =>
    intro c b d ha hc h
    cases c with
    | nil =>
      simp only [List.cons_append, List.nil_append, List.cons.injEq] at h
      exact absurd (h.1 ▸ List.mem_cons_self x xs) ha
    | cons y ys =>
      simp only [List.cons_append, List.cons.injEq] at h
      have hx : '_' ∉ xs := fun hm => ha (List.mem_cons_of_mem x hm)
      have hy : '_' ∉ ys := fun hm => hc (List.mem_cons_of_mem y hm)
      obtain ⟨heads, tails⟩ := h
      obtain ⟨h1, h2⟩ := ih ys b d hx hy tails
      exact ⟨by rw [heads, h1], h2⟩

/-! ## The cache key (`CachingUserService.getCacheKey`)

Source: `return ` followed by the template literal
`page_${page}_${results}`.
-/

/-- `getCacheKey(page, results)` of `CachingUserService`. -/
def getCacheKey (page results : Nat) : String :=
  "page_" ++ toString page ++ "_" ++ toString results

theorem getCacheKey_injective (p₁ r₁ p₂ r₂ : Nat)
    (h : getCacheKey p₁ r₁ = getCacheKey p₂ r₂) : p₁ = p₂ ∧ r₁ = r₂ := by
  have hd := congrArg String.data h
  simp only [getCacheKey, toString, String.data_append, List.append_assoc] at hd
  have hd₂ : (Nat.repr p₁).data ++ '_' :: (Nat.repr r₁).data =
      (Nat.repr p₂).data ++ '_' :: (Nat.repr r₂).data := by
    have := List.append_cancel_left hd
    simpa using this
  have hu₁ : '_' ∉ (Nat.repr p₁).data := by
    rw [repr_eq_digitsOf]; exact underscore_not_mem_digitsOf p₁
  have hu₂ : '_' ∉ (Nat.repr p₂).data := by
    rw [repr_eq_digitsOf]; exact underscore_not_mem_digitsOf p₂
  obtain ⟨hp, hr⟩ := append_underscore_inj _ _ _ _ hu₁ hu₂ hd₂
  constructor
  · exact repr_injective p₁ p₂ (by cases hrep : Nat.repr p₁ <;> cases hrep₂ : Nat.repr p₂ <;>
      simp_all [String.data])
  · exact repr_injective r₁ r₂ (by cases hrep : Nat.repr r₁ <;> cases hrep₂ : Nat.repr r₂ <;>
      simp_all [String.data])

/-! ## Data model (`src/entities/user.ts`)

`ApiResponse` is `{ results: User[], info: { page, results, seed, version } }`.
User records are opaque pass-through data, hence the type parameter `U`.
-/

/-- The `info` block of an `ApiResponse`. -/
structure Info where
  page : Nat
  results : Nat
  seed : String
  version : String
deriving DecidableEq, Repr

/-- `ApiResponse` from `src/entities/user.ts`, parametric in the user type. -/
structure ApiResponse (U : Type) where
  results : List U
  info : Info
deriving DecidableEq, Repr

/-! ## JavaScript throw/async conventions -/

/-- A thrown JavaScript value: either an `Error` instance (carrying its
message) or any other value (`throw "boom"`), which `instanceof Error`
rejects. -/
inductive JsValue where
  | errorVal (msg : String)
  | otherVal (payload : String)
deriving DecidableEq, Repr

/-- An `Error` instance as seen by a caller of a rejected promise. -/
structure JsError where
  message : String
deriving DecidableEq, Repr

deriving instance DecidableEq for Except

/-- Outcome of the `fetch` + `response.json()` pair inside
`UserService.fetchUsers`:
* `response ok status body` — `fetch` resolved with the given `ok`/`status`;
  `body` is what `response.json()` would produce (`.error v` if parsing
  throws `v`);
* `thrown v` — `fetch` itself rejected with `v` (transport failure). -/
inductive FetchOutcome (U : Type) where
  | response (ok : Bool) (status : Nat) (body : Except JsValue (ApiResponse U))
  | thrown (v : JsValue)
deriving DecidableEq, Repr

/-! ## The fetch client (`UserService`, src/services/api.ts lines 32-59) -/

/-- The request URL built by `UserService.fetchUsers`; the seed is the fixed
string `abc`. -/
def requestUrl (page results : Nat) : String :=
  "https://randomuser.me/api/?page=" ++ toString page ++ "&results=" ++
    toString results ++ "&seed=abc"

namespace UserService

/-- The `catch (error)` block of `UserService.fetchUsers`: an `Error`
instance is logged and rethrown; any other thrown value falls through, so
the `async` function resolves to `undefined` (`ok none`). -/
def catchClause (U : Type) (v : JsValue) : Except JsError (Option (ApiResponse U)) :=
  match v with
  | .errorVal msg => .error ⟨msg⟩
  | .otherVal _ => .ok none

/-- `UserService.fetchUsers`, as a function of the transport outcome of its
single `fetch` call.  A non-`ok` response throws
`new Error` with message `HTTP error! status: ` followed by the status; the
`try`/`catch` rethrows it (it is an `Error`).  There is no loop or retry:
exactly one transport outcome is consumed. -/
def fetchUsers {U : Type} (outcome : FetchOutcome U) :
    Except JsError (Option (ApiResponse U)) :=
  match outcome with
  | .thrown v => catchClause U v
  | .response ok status body =>
    if ok then
      match body with
      | .ok resp => .ok (some resp)
      | .error v => catchClause U v
    else
      catchClause U (.errorVal ("HTTP error! status: " ++ toString status))

end UserService

/-! ## `Map<string, User[]>` as an association list -/

/-- `Map.has`. -/
def mapHas {α : Type} (m : List (String × α)) (k : String) : Bool :=
  m.any (fun p => p.1 == k)

/-- `Map.get` (returning `undefined` as `none`). -/
def mapGet? {α : Type} (m : List (String × α)) (k : String) : Option α :=
  (m.find? (fun p => p.1 == k)).map (fun p => p.2)

/-- `Map.delete`. -/
def mapDelete {α : Type} (m : List (String × α)) (k : String) : List (String × α) :=
  m.filter (fun p => p.1 != k)

/-- `Map.set`: replaces the value in place when the key is present,
appends a new entry otherwise. -/
def mapSet {α : Type} (m : List (String × α)) (k : String) (v : α) :
    List (String × α) :=
  if mapHas m k then
    m.map (fun p => if p.1 == k then (k, v) else p)
  else
    m ++ [(k, v)]

theorem mapHas_eq_isSome {α : Type} (m : List (String × α)) (k : String) :
    mapHas m k = (mapGet? m k).isSome := by
  induction m with
  | nil => rfl
  | cons p rest ih =>
    by_cases h : p.1 = k
    · simp [mapHas, mapGet?, List.any, List.find?, h]
    · have hb : (p.1 == k) = false := beq_false_of_ne h
      simp only [mapHas, List.any, mapGet?, List.find?, hb, Bool.false_or]
      exact ih

theorem mapHas_mapDelete_self {α : Type} (m : List (String × α)) (k : String) :
    mapHas (mapDelete m k) k = false := by
  induction m with
  | nil => rfl
  | cons p rest ih =>
    by_cases h : p.1 = k
    · have hb : (p.1 != k) = false := by simp [h]
      simpa [mapDelete, List.filter, hb] using ih
    · have hb : (p.1 != k) = true := by simp [h]
      have hbeq : (p.1 == k) = false := beq_false_of_ne h
      simpa [mapDelete, List.filter, hb, mapHas, hbeq] using ih

theorem mapGet?_mapDelete_ne {α : Type} (m : List (String × α)) (k k' : String)
    (h : k' ≠ k) : mapGet? (mapDelete m k) k' = mapGet? m k' := by
  induction m with
  | nil => rfl
  | cons p rest ih =>
    by_cases hp : p.1 = k
    · have hb : (p.1 != k) = false := by simp [hp]
      have hbeq : (p.1 == k') = false := beq_false_of_ne (by rw [hp]; exact h.symm)
      simp only [mapDelete, List.filter, hb] at ih ⊢
      simp only [mapGet?, List.find?, hbeq]
      exact ih
    · have hb : (p.1 != k) = true := by simp [hp]
      by_cases hq : p.1 = k'
      · have hbeq : (p.1 == k') = true := beq_iff_eq.mpr hq
        simp [mapDelete, List.filter, hb, mapGet?, List.find?, hbeq]
      · have hbeq : (p.1 == k') = false := beq_false_of_ne hq
        simp only [mapDelete, List.filter, hb, mapGet?, List.find?, hbeq]
        exact ih

theorem mapHas_mapDelete_ne {α : Type} (m : List (String × α)) (k k' : String)
    (h : k' ≠ k) : mapHas (mapDelete m k) k' = mapHas m k' := by
  rw [mapHas_eq_isSome, mapHas_eq_isSome, mapGet?_mapDelete_ne m k k' h]

theorem mapDelete_of_not_has {α : Type} (m : List (String × α)) (k : String)
    (h : mapHas m k = false) : mapDelete m k = m := by
  induction m with
  | nil => rfl
  | cons p rest ih =>
    simp only [mapHas, List.any, Bool.or_eq_false_iff] at h
    have hb : (p.1 != k) = true := by
      simp only [bne, h.1, Bool.not_false]
    simp only [mapDelete, List.filter, hb]
    exact congrArg (List.cons p) (ih h.2)

theorem mapGet?_map_replace_self {α : Type} (m : List (String × α)) (k : String)
    (v : α) : mapHas m k = true →
    mapGet? (m.map (fun p => if p.1 == k then (k, v) else p)) k = some v := by
  induction m with
  | nil => intro h; simp [mapHas] at h
  | cons p rest ih =>
    intro h
    by_cases hp : p.1 = k
    · have hbeq : (p.1 == k) = true := beq_iff_eq.mpr hp
      simp [mapGet?, List.find?, hbeq]
    · have hbeq : (p.1 == k) = false := beq_false_of_ne hp
      have hrest : mapHas rest k = true := by simpa [mapHas, hbeq] using h
      simpa [mapGet?, List.find?, hbeq] using ih hrest

theorem mapGet?_append_single_self {α : Type} (m : List (String × α)) (k : String)
    (v : α) : mapHas m k = false → mapGet? (m ++ [(k, v)]) k = some v := by
  induction m with
  | nil => intro _; simp [mapGet?, List.find?]
  | cons p rest ih =>
    intro h
    simp only [mapHas, List.any_cons, Bool.or_eq_false_iff] at h
    have hrest : mapHas rest k = false := h.2
    simpa [mapGet?, List.find?, h.1] using ih hrest

theorem mapGet?_mapSet_self {α : Type} (m : List (String × α)) (k : String) (v : α) :
    mapGet? (mapSet m k v) k = some v := by
  unfold mapSet
  by_cases h : mapHas m k = true
  · simp only [h, if_true]
    exact mapGet?_map_replace_self m k v h
  · simp only [h, if_false]
    exact mapGet?_append_single_self m k v (by simpa using h)

theorem mapGet?_map_replace_ne {α : Type} (m : List (String × α)) (k k' : String)
    (v : α) (h : k' ≠ k) :
    mapGet? (m.map (fun p => if p.1 == k then (k, v) else p)) k' = mapGet? m k' := by
  induction m with
  | nil => rfl
  | cons p rest ih =>
    by_cases hp : p.1 = k
    · have hbeq : (p.1 == k) = true := beq_iff_eq.mpr hp
      have hkk : (k == k') = false := beq_false_of_ne fun he => h he.symm
      have hpk : (p.1 == k') = false := beq_false_of_ne (hp ▸ fun he => h he.symm)
      simpa [mapGet?, List.find?, hbeq, hkk, hpk] using ih
    · have hbeq : (p.1 == k) = false := beq_false_of_ne hp
      by_cases hq : p.1 = k'
      · have hpk : (p.1 == k') = true := beq_iff_eq.mpr hq
        simp [mapGet?, List.find?, hbeq, hpk]
      · have hpk : (p.1 == k') = false := beq_false_of_ne hq
        simpa [mapGet?, List.find?, hbeq, hpk] using ih

theorem mapGet?_append_single_ne {α : Type} (m : List (String × α)) (k k' : String)
    (v : α) (h : k' ≠ k) : mapGet? (m ++ [(k, v)]) k' = mapGet? m k' := by
  induction m with
  | nil =>
    have hkk : (k == k') = false := beq_false_of_ne fun he => h he.symm
    simp [mapGet?, List.find?, hkk]
  | cons p rest ih =>
    by_cases hq : p.1 = k'
    · have hpk : (p.1 == k') = true := beq_iff_eq.mpr hq
      simp [mapGet?, List.find?, hpk]
    · have hpk : (p.1 == k') = false := beq_false_of_ne hq
      simpa [mapGet?, List.find?, hpk] using ih

theorem mapGet?_mapSet_ne {α : Type} (m : List (String × α)) (k k' : String) (v : α)
    (h : k' ≠ k) : mapGet? (mapSet m k v) k' = mapGet? m k' := by
  unfold mapSet
  by_cases hh : mapHas m k = true
  · simp only [hh, if_true]
    exact mapGet?_map_replace_ne m k k' v h
  · simp only [hh, if_false]
    exact mapGet?_append_single_ne m k k' v h

theorem mapHas_mapSet_self {α : Type} (m : List (String × α)) (k : String) (v : α) :
    mapHas (mapSet m k v) k = true := by
  rw [mapHas_eq_isSome, mapGet?_mapSet_self]
  rfl

theorem mapHas_mapSet_ne {α : Type} (m : List (String × α)) (k k' : String) (v : α)
    (h : k' ≠ k) : mapHas (mapSet m k v) k' = mapHas m k' := by
  rw [mapHas_eq_isSome, mapHas_eq_isSome, mapGet?_mapSet_ne m k k' v h]

/-! ## The caching decorator (`CachingUserService`, src/services/api.ts 93-177)

The mutable fields of a `CachingUserService` instance plus the timers that
`setupCacheExpiration` has scheduled via `setTimeout` and that have not yet
fired.  `setTimeout(() => this.cache.delete(key), this.cacheTTL)` registered
at time `now` is the pending record `(now + cacheTTL, key)`.  The source
never stores the handle returned by `setTimeout` and never calls
`clearTimeout`, so no operation of the class removes a pending timer; only
the event loop firing it does (`fireTimer`).
-/

structure CacheState (U : Type) where
  cache : List (String × List U)
  timers : List (Nat × String)
  cacheTTL : Nat
deriving DecidableEq, Repr

/-- The result of one `CachingUserService.fetchUsers` call: the state after
the call, the value the returned promise settles with, and whether the
wrapped service (`super.fetchUsers`, the network path) was invoked. -/
structure FetchStep (U : Type) where
  state : CacheState U
  result : Except JsError (Option (ApiResponse U))
  networkCalled : Bool
deriving DecidableEq, Repr

namespace CachingUserService

/-- `CachingUserService.fetchUsers` at time `now`, given the outcome
`deleg` that the wrapped service's `fetchUsers` would produce.  On a hit it
rebuilds the response from the stored `User[]` with hardcoded metadata
`seed: "abc", version: "1.0"`; on a miss it delegates, and only a
non-`undefined` success populates the cache and schedules expiry. -/
def fetchUsers {U : Type} (st : CacheState U) (now page results : Nat)
    (deleg : Except JsError (Option (ApiResponse U))) : FetchStep U :=
  let cacheKey := getCacheKey page results
  if mapHas st.cache cacheKey then
    { state := st
      result := .ok (some
        { results := (mapGet? st.cache cacheKey).getD []
          info := { page := page, results := results, seed := "abc", version := "1.0" } })
      networkCalled := false }
  else
    match deleg with
    | .error e => { state := st, result := .error e, networkCalled := true }
    | .ok none => { state := st, result := .ok none, networkCalled := true }
    | .ok (some resp) =>
      { state :=
          { st with
            cache := mapSet st.cache cacheKey resp.results
            timers := st.timers ++ [(now + st.cacheTTL, cacheKey)] }
        result := .ok (some resp)
        networkCalled := true }

/-- The event loop firing one pending expiry timer `tk = (fireTime, key)`:
the scheduled callback runs `this.cache.delete(key)` and the timer is
consumed. -/
def fireTimer {U : Type} (st : CacheState U) (tk : Nat × String) : CacheState U :=
  { st with cache := mapDelete st.cache tk.2, timers := st.timers.erase tk }

/-- `CachingUserService.clearCache`: `this.cache.clear()`.  Pending timers
are untouched — the source keeps no handle to them. -/
def clearCache {U : Type} (st : CacheState U) : CacheState U :=
  { st with cache := [] }

/-- `CachingUserService.invalidatePage`: deletes the derived key from the
cache map.  Pending timers are untouched. -/
def invalidatePage {U : Type} (st : CacheState U) (page results : Nat) : CacheState U :=
  { st with cache := mapDelete st.cache (getCacheKey page results) }

end CachingUserService

/-! ## The debounce helper (`src/utils/debounce.ts`)

`debounce(func, wait)` keeps a single pending timeout; every call clears it
and schedules `func` with the current call's arguments `wait` ms later.  We
model a whole session: given the strictly time-ordered list of calls
`(time, args)`, `debounceRun` returns the invocations of `func` that
actually happen, as `(fireTime, args)` pairs.  A pending timeout scheduled
at `t` is cancelled by any later call at time `t' ≤ t + wait` (a call at the
exact deadline counts as cancelling). -/
def debounceRun {α : Type} (wait : Nat) : List (Nat × α) → List (Nat × α)
  | [] => []
  | (t, a) :: rest =>
    match rest with
    | [] => [(t + wait, a)]
    | (t', _) :: _ =>
      if t + wait < t' then (t + wait, a) :: debounceRun wait rest
      else debounceRun wait rest

/-- A burst: every call arrives no later than `wait` after the previous
one, i.e. within the previous call's debounce window. -/
def isBurst {α : Type} (wait : Nat) : List (Nat × α) → Bool
  | (t, _) :: (t', a') :: rest => decide (t' ≤ t + wait) && isBurst wait ((t', a') :: rest)
  | _ => true

/-! ## The list component (`UserList.vue`, `loadUsers`/`retryLoading`)

The refs of the component's `setup()` as one record; `loadUsers` as a state
transition given the outcome of `userService.fetchUsers` (`Except` for a
rejected promise), returning the new state and whether a fetch was started
(`false` for the guard's early return). -/

structure ListState (U : Type) where
  users : List U
  currentPage : Nat
  loading : Bool
  error : Option String
  hasMore : Bool
deriving DecidableEq, Repr

/-- The message stored by the `catch` of `loadUsers`:
`err instanceof Error ? err.message : "An error occurred while loading users"`. -/
def loadErrorMessage (v : JsValue) : String :=
  match v with
  | .errorVal msg => msg
  | .otherVal _ => "An error occurred while loading users"

/-- `loadUsers` of `UserList.vue`.  The guard returns immediately when a
load is in flight or `hasMore` is false; otherwise `loading` is set,
`error` cleared, and the fetch outcome handled: an empty `results` turns
`hasMore` off, a response appends and bumps `currentPage`, a rejection
records the message and turns `hasMore` off; `finally` resets `loading`. -/
def loadUsers {U : Type} (st : ListState U)
    (outcome : Except JsValue (Option (ApiResponse U))) : ListState U × Bool :=
  if st.loading || !st.hasMore then (st, false)
  else
    match outcome with
    | .error v =>
      ({ st with error := some (loadErrorMessage v), hasMore := false,
                 loading := false }, true)
    | .ok none => ({ st with error := none, loading := false }, true)
    | .ok (some resp) =>
      if resp.results.length = 0 then
        ({ st with error := none, hasMore := false, loading := false }, true)
      else
        ({ st with error := none, currentPage := st.currentPage + 1,
                   users := st.users ++ resp.results, loading := false }, true)

/-- `retryLoading` of `UserList.vue`: clear the error, reset `hasMore`,
then run `loadUsers`. -/
def retryLoading {U : Type} (st : ListState U)
    (outcome : Except JsValue (Option (ApiResponse U))) : ListState U × Bool :=
  loadUsers { st with error := none, hasMore := true } outcome

/-! ## Claim theorems -/

theorem repr_data_injective (m n : Nat) (h : (Nat.repr m).data = (Nat.repr n).data) :
    m = n := by
  rw [repr_eq_digitsOf, repr_eq_digitsOf] at h
  exact digitsOf_injective m n h

/-- C5: the cache-key derivation is a deterministic and injective function
of the pagination parameters: equal parameters give the same key, distinct
`(page, pageSize)` pairs give distinct keys, and in particular
`key(1, 10) ≠ key(2, 10)`. -/
theorem cacheKey_deterministic_and_injective :
    getCacheKey 1 10 = getCacheKey 1 10 ∧
    (∀ p₁ r₁ p₂ r₂ : Nat, getCacheKey p₁ r₁ = getCacheKey p₂ r₂ → p₁ = p₂ ∧ r₁ = r₂) ∧
    getCacheKey 1 10 ≠ getCacheKey 2 10 := by
  refine ⟨rfl, getCacheKey_injective, fun h => ?_⟩
  have := getCacheKey_injective 1 10 2 10 h
  omega

theorem cacheKey_deterministic_and_injective_witness :
    (1 : Nat) = 2 ∧ (10 : Nat) = 10 → False :=
  fun h => by omega

/-- C2: when the wrapped fetch dependency fails, `CachingUserService.fetchUsers`
propagates the failure unchanged, creates or modifies no cache entry (and no
timer), and a subsequent call for the same key delegates to the wrapped
dependency again. -/
theorem fetchFailure_propagates_cache_untouched (U : Type) (st : CacheState U)
    (now now' page results : Nat) (e : JsError)
    (deleg' : Except JsError (Option (ApiResponse U)))
    (hmiss : mapHas st.cache (getCacheKey page results) = false) :
    (CachingUserService.fetchUsers st now page results (.error e)).result = .error e ∧
    (CachingUserService.fetchUsers st now page results (.error e)).state = st ∧
    (CachingUserService.fetchUsers st now page results (.error e)).networkCalled = true ∧
    (CachingUserService.fetchUsers
      (CachingUserService.fetchUsers st now page results (.error e)).state
      now' page results deleg').networkCalled = true := by
  simp [CachingUserService.fetchUsers, hmiss]
  rcases deleg' with e' | (_ | r) <;> rfl

theorem fetchFailure_propagates_cache_untouched_witness :
    (CachingUserService.fetchUsers (⟨[], [], 100⟩ : CacheState Nat) 0 1 10
        (.error ⟨"boom"⟩)).result = .error ⟨"boom"⟩ ∧
    (CachingUserService.fetchUsers (⟨[], [], 100⟩ : CacheState Nat) 0 1 10
        (.error ⟨"boom"⟩)).state = ⟨[], [], 100⟩ ∧
    (CachingUserService.fetchUsers (⟨[], [], 100⟩ : CacheState Nat) 0 1 10
        (.error ⟨"boom"⟩)).networkCalled = true ∧
    (CachingUserService.fetchUsers
      (CachingUserService.fetchUsers (⟨[], [], 100⟩ : CacheState Nat) 0 1 10
        (.error ⟨"boom"⟩)).state 7 1 10 (.ok none)).networkCalled = true :=
  fetchFailure_propagates_cache_untouched Nat ⟨[], [], 100⟩ 0 7 1 10 ⟨"boom"⟩
    (.ok none) (by decide)

/-- C9: a thrown value that is not an `Error` instance is not rethrown by
`UserService.fetchUsers`'s catch block — the call resolves to `undefined`
(`ok none`); the caching decorator then returns `undefined` and leaves the
cache (and timers) untouched for that key. -/
theorem nonError_throw_resolves_undefined (U : Type) (st : CacheState U)
    (now page results : Nat) (payload : String)
    (hmiss : mapHas st.cache (getCacheKey page results) = false) :
    UserService.fetchUsers (FetchOutcome.thrown (.otherVal payload) : FetchOutcome U) =
      .ok none ∧
    (CachingUserService.fetchUsers st now page results
      (UserService.fetchUsers (FetchOutcome.thrown (.otherVal payload) : FetchOutcome U))).result =
      .ok none ∧
    (CachingUserService.fetchUsers st now page results
      (UserService.fetchUsers (FetchOutcome.thrown (.otherVal payload) : FetchOutcome U))).state =
      st := by
  refine ⟨rfl, ?_, ?_⟩ <;>
    simp [CachingUserService.fetchUsers, UserService.fetchUsers,
      UserService.catchClause, hmiss]

theorem nonError_throw_resolves_undefined_witness :
    UserService.fetchUsers (FetchOutcome.thrown (.otherVal "boom") : FetchOutcome Nat) =
      .ok none ∧
    (CachingUserService.fetchUsers (⟨[], [], 100⟩ : CacheState Nat) 0 1 10
      (UserService.fetchUsers (FetchOutcome.thrown (.otherVal "boom") : FetchOutcome Nat))).result =
      .ok none ∧
    (CachingUserService.fetchUsers (⟨[], [], 100⟩ : CacheState Nat) 0 1 10
      (UserService.fetchUsers (FetchOutcome.thrown (.otherVal "boom") : FetchOutcome Nat))).state =
      ⟨[], [], 100⟩ :=
  nonError_throw_resolves_undefined Nat ⟨[], [], 100⟩ 0 1 10 "boom" (by decide)

/-- C6: invalidation is key-scoped: invalidating `(p₁, r₁)` evicts exactly
that key's entry and leaves any other key's entry unchanged (a subsequent
fetch for the other key is still a cache hit); invalidating a pair with no
entry leaves the whole state unchanged. -/
theorem invalidatePage_key_scoped (U : Type) (st : CacheState U)
    (p₁ r₁ p₂ r₂ now : Nat) (deleg : Except JsError (Option (ApiResponse U)))
    (hne : ¬(p₁ = p₂ ∧ r₁ = r₂)) :
    mapHas (CachingUserService.invalidatePage st p₁ r₁).cache (getCacheKey p₁ r₁) = false ∧
    mapGet? (CachingUserService.invalidatePage st p₁ r₁).cache (getCacheKey p₂ r₂) =
      mapGet? st.cache (getCacheKey p₂ r₂) ∧
    (mapHas st.cache (getCacheKey p₂ r₂) = true →
      (CachingUserService.fetchUsers (CachingUserService.invalidatePage st p₁ r₁)
        now p₂ r₂ deleg).networkCalled = false) ∧
    (mapHas st.cache (getCacheKey p₁ r₁) = false →
      CachingUserService.invalidatePage st p₁ r₁ = st) := by
  have hkey : getCacheKey p₂ r₂ ≠ getCacheKey p₁ r₁ := fun h =>
    hne ⟨(getCacheKey_injective p₁ r₁ p₂ r₂ h.symm).1,
      (getCacheKey_injective p₁ r₁ p₂ r₂ h.symm).2⟩
  refine ⟨?_, ?_, ?_, ?_⟩
  · exact mapHas_mapDelete_self st.cache (getCacheKey p₁ r₁)
  · exact mapGet?_mapDelete_ne st.cache (getCacheKey p₁ r₁) (getCacheKey p₂ r₂) hkey
  · intro hhit
    have hhas : mapHas (CachingUserService.invalidatePage st p₁ r₁).cache
        (getCacheKey p₂ r₂) = true := by
      rw [show (CachingUserService.invalidatePage st p₁ r₁).cache =
        mapDelete st.cache (getCacheKey p₁ r₁) from rfl]
      rw [mapHas_mapDelete_ne st.cache (getCacheKey p₁ r₁) (getCacheKey p₂ r₂) hkey]
      exact hhit
    simp [CachingUserService.fetchUsers, hhas]
  · intro hmiss
    show { st with cache := mapDelete st.cache (getCacheKey p₁ r₁) } = st
    rw [mapDelete_of_not_has st.cache (getCacheKey p₁ r₁) hmiss]

theorem invalidatePage_key_scoped_witness :
    mapHas (CachingUserService.invalidatePage
        (⟨[(getCacheKey 1 10, [5]), (getCacheKey 2 10, [6])], [], 100⟩ : CacheState Nat)
        1 10).cache (getCacheKey 1 10) = false ∧
    mapGet? (CachingUserService.invalidatePage
        (⟨[(getCacheKey 1 10, [5]), (getCacheKey 2 10, [6])], [], 100⟩ : CacheState Nat)
        1 10).cache (getCacheKey 2 10) =
      mapGet? ((⟨[(getCacheKey 1 10, [5]), (getCacheKey 2 10, [6])], [], 100⟩ :
        CacheState Nat)).cache (getCacheKey 2 10) ∧
    (mapHas ((⟨[(getCacheKey 1 10, [5]), (getCacheKey 2 10, [6])], [], 100⟩ :
        CacheState Nat)).cache (getCacheKey 2 10) = true →
      (CachingUserService.fetchUsers (CachingUserService.invalidatePage
        (⟨[(getCacheKey 1 10, [5]), (getCacheKey 2 10, [6])], [], 100⟩ : CacheState Nat)
        1 10) 0 2 10 (.ok none)).networkCalled = false) ∧
    (mapHas ((⟨[(getCacheKey 1 10, [5]), (getCacheKey 2 10, [6])], [], 100⟩ :
        CacheState Nat)).cache (getCacheKey 1 10) = false →
      CachingUserService.invalidatePage
        (⟨[(getCacheKey 1 10, [5]), (getCacheKey 2 10, [6])], [], 100⟩ : CacheState Nat)
        1 10 = ⟨[(getCacheKey 1 10, [5]), (getCacheKey 2 10, [6])], [], 100⟩) :=
  invalidatePage_key_scoped Nat ⟨[(getCacheKey 1 10, [5]), (getCacheKey 2 10, [6])], [], 100⟩
    1 10 2 10 0 (.ok none) (by omega)

/-- C1 counterexample: the cache entry stores only the `User[]`; on a hit the
metadata is rebuilt with the hardcoded constants `seed: "abc"`,
`version: "1.0"`.  When the first (network) response carried
`version: "1.4"`, the second call's result differs from the first call's
result even though it is a hit — refuting "the returned result equals the
first call's result ... with the entry's stored seed and version". -/
theorem cacheHit_result_differs_counterexample :
    (CachingUserService.fetchUsers
      (CachingUserService.fetchUsers (⟨[], [], 1000⟩ : CacheState Nat) 0 1 10
        (.ok (some ⟨[7], ⟨1, 10, "abc", "1.4"⟩⟩))).state
      5 1 10 (.ok (some ⟨[7], ⟨1, 10, "abc", "1.4"⟩⟩))).networkCalled = false ∧
    (CachingUserService.fetchUsers
      (CachingUserService.fetchUsers (⟨[], [], 1000⟩ : CacheState Nat) 0 1 10
        (.ok (some ⟨[7], ⟨1, 10, "abc", "1.4"⟩⟩))).state
      5 1 10 (.ok (some ⟨[7], ⟨1, 10, "abc", "1.4"⟩⟩))).result ≠
    (CachingUserService.fetchUsers (⟨[], [], 1000⟩ : CacheState Nat) 0 1 10
      (.ok (some ⟨[7], ⟨1, 10, "abc", "1.4"⟩⟩))).result := by
  decide

/-- C1 amended: if a live cache entry exists for the derived key,
`fetchUsers` returns without invoking the wrapped dependency and without
changing any state; the returned `results` is the stored `User[]` (the
first call's `results`), and the returned metadata echoes the requested
page/pageSize with the hardcoded constants `seed: "abc"`,
`version: "1.0"` (no metadata is stored in the entry).  The full result
equals the first call's result exactly when the first response's metadata
already was that constant block. -/
theorem cacheHit_serves_stored_results (U : Type) (st : CacheState U)
    (now now' page results : Nat) (resp : ApiResponse U)
    (deleg' : Except JsError (Option (ApiResponse U)))
    (hmiss : mapHas st.cache (getCacheKey page results) = false) :
    (CachingUserService.fetchUsers
      (CachingUserService.fetchUsers st now page results (.ok (some resp))).state
      now' page results deleg').networkCalled = false ∧
    (CachingUserService.fetchUsers
      (CachingUserService.fetchUsers st now page results (.ok (some resp))).state
      now' page results deleg').state =
      (CachingUserService.fetchUsers st now page results (.ok (some resp))).state ∧
    (CachingUserService.fetchUsers
      (CachingUserService.fetchUsers st now page results (.ok (some resp))).state
      now' page results deleg').result =
      .ok (some ⟨resp.results, ⟨page, results, "abc", "1.0"⟩⟩) ∧
    (resp.info = ⟨page, results, "abc", "1.0"⟩ →
      (CachingUserService.fetchUsers
        (CachingUserService.fetchUsers st now page results (.ok (some resp))).state
        now' page results deleg').result =
      (CachingUserService.fetchUsers st now page results (.ok (some resp))).result) := by
  have hstep1 : (CachingUserService.fetchUsers st now page results
      (.ok (some resp))).state =
      { st with
        cache := mapSet st.cache (getCacheKey page results) resp.results
        timers := st.timers ++ [(now + st.cacheTTL, getCacheKey page results)] } := by
    simp [CachingUserService.fetchUsers, hmiss]
  have hres1 : (CachingUserService.fetchUsers st now page results
      (.ok (some resp))).result = .ok (some resp) := by
    simp [CachingUserService.fetchUsers, hmiss]
  refine ⟨?_, ?_, ?_, ?_⟩
  · rw [hstep1]
    simp [CachingUserService.fetchUsers, mapHas_mapSet_self]
  · rw [hstep1]
    simp [CachingUserService.fetchUsers, mapHas_mapSet_self]
  · rw [hstep1]
    simp [CachingUserService.fetchUsers, mapHas_mapSet_self, mapGet?_mapSet_self]
  · intro hinfo
    rw [hres1, hstep1]
    simp [CachingUserService.fetchUsers, mapHas_mapSet_self, mapGet?_mapSet_self]
    cases resp with
    | mk rs info =>
      simp only [ApiResponse.mk.injEq] at hinfo ⊢
      simp [hinfo]

theorem cacheHit_serves_stored_results_witness :
    (CachingUserService.fetchUsers
      (CachingUserService.fetchUsers (⟨[], [], 1000⟩ : CacheState Nat) 0 1 10
        (.ok (some ⟨[7], ⟨1, 10, "abc", "1.0"⟩⟩))).state
      5 1 10 (.ok none)).networkCalled = false ∧
    (CachingUserService.fetchUsers
      (CachingUserService.fetchUsers (⟨[], [], 1000⟩ : CacheState Nat) 0 1 10
        (.ok (some ⟨[7], ⟨1, 10, "abc", "1.0"⟩⟩))).state
      5 1 10 (.ok none)).state =
      (CachingUserService.fetchUsers (⟨[], [], 1000⟩ : CacheState Nat) 0 1 10
        (.ok (some ⟨[7], ⟨1, 10, "abc", "1.0"⟩⟩))).state ∧
    (CachingUserService.fetchUsers
      (CachingUserService.fetchUsers (⟨[], [], 1000⟩ : CacheState Nat) 0 1 10
        (.ok (some ⟨[7], ⟨1, 10, "abc", "1.0"⟩⟩))).state
      5 1 10 (.ok none)).result = .ok (some ⟨[7], ⟨1, 10, "abc", "1.0"⟩⟩) ∧
    ((⟨1, 10, "abc", "1.0"⟩ : Info) = ⟨1, 10, "abc", "1.0"⟩ →
      (CachingUserService.fetchUsers
        (CachingUserService.fetchUsers (⟨[], [], 1000⟩ : CacheState Nat) 0 1 10
          (.ok (some ⟨[7], ⟨1, 10, "abc", "1.0"⟩⟩))).state
        5 1 10 (.ok none)).result =
      (CachingUserService.fetchUsers (⟨[], [], 1000⟩ : CacheState Nat) 0 1 10
        (.ok (some ⟨[7], ⟨1, 10, "abc", "1.0"⟩⟩))).result) :=
  cacheHit_serves_stored_results Nat ⟨[], [], 1000⟩ 0 5 1 10
    ⟨[7], ⟨1, 10, "abc", "1.0"⟩⟩ (.ok none) (by decide)

/-- C3: a successful miss schedules an expiry timer for `now + cacheTTL`;
when that timer fires, it removes exactly that key's entry from the cache —
a proactive, scheduled eviction (the timer callback deletes the entry, it
is not a check on the next access) — and a repeated `fetchUsers` for the
key afterwards invokes the underlying dependency again. -/
theorem cacheExpiry_evicts_and_refetches (U : Type) (st : CacheState U)
    (now now' page results : Nat) (resp : ApiResponse U)
    (deleg' : Except JsError (Option (ApiResponse U)))
    (hmiss : mapHas st.cache (getCacheKey page results) = false) :
    (now + st.cacheTTL, getCacheKey page results) ∈
      (CachingUserService.fetchUsers st now page results (.ok (some resp))).state.timers ∧
    mapHas (CachingUserService.fireTimer
      (CachingUserService.fetchUsers st now page results (.ok (some resp))).state
      (now + st.cacheTTL, getCacheKey page results)).cache (getCacheKey page results) =
      false ∧
    (∀ k', k' ≠ getCacheKey page results →
      mapGet? (CachingUserService.fireTimer
        (CachingUserService.fetchUsers st now page results (.ok (some resp))).state
        (now + st.cacheTTL, getCacheKey page results)).cache k' =
      mapGet? (CachingUserService.fetchUsers st now page results
        (.ok (some resp))).state.cache k') ∧
    (CachingUserService.fetchUsers
      (CachingUserService.fireTimer
        (CachingUserService.fetchUsers st now page results (.ok (some resp))).state
        (now + st.cacheTTL, getCacheKey page results))
      now' page results deleg').networkCalled = true := by
  have hstep1 : (CachingUserService.fetchUsers st now page results
      (.ok (some resp))).state =
      { st with
        cache := mapSet st.cache (getCacheKey page results) resp.results
        timers := st.timers ++ [(now + st.cacheTTL, getCacheKey page results)] } := by
    simp [CachingUserService.fetchUsers, hmiss]
  refine ⟨?_, mapHas_mapDelete_self _ _, ?_, ?_⟩
  · rw [hstep1]
    simp
  · intro k' hk'
    exact mapGet?_mapDelete_ne _ _ _ hk'
  · rw [hstep1]
    simp [CachingUserService.fetchUsers, CachingUserService.fireTimer,
      mapHas_mapDelete_self]
    rcases deleg' with e' | (_ | r) <;> rfl

theorem cacheExpiry_evicts_and_refetches_witness :
    (0 + 1000, getCacheKey 1 10) ∈
      (CachingUserService.fetchUsers (⟨[], [], 1000⟩ : CacheState Nat) 0 1 10
        (.ok (some ⟨[7], ⟨1, 10, "abc", "1.0"⟩⟩))).state.timers ∧
    mapHas (CachingUserService.fireTimer
      (CachingUserService.fetchUsers (⟨[], [], 1000⟩ : CacheState Nat) 0 1 10
        (.ok (some ⟨[7], ⟨1, 10, "abc", "1.0"⟩⟩))).state
      (0 + 1000, getCacheKey 1 10)).cache (getCacheKey 1 10) = false ∧
    (∀ k', k' ≠ getCacheKey 1 10 →
      mapGet? (CachingUserService.fireTimer
        (CachingUserService.fetchUsers (⟨[], [], 1000⟩ : CacheState Nat) 0 1 10
          (.ok (some ⟨[7], ⟨1, 10, "abc", "1.0"⟩⟩))).state
        (0 + 1000, getCacheKey 1 10)).cache k' =
      mapGet? (CachingUserService.fetchUsers (⟨[], [], 1000⟩ : CacheState Nat) 0 1 10
        (.ok (some ⟨[7], ⟨1, 10, "abc", "1.0"⟩⟩))).state.cache k') ∧
    (CachingUserService.fetchUsers
      (CachingUserService.fireTimer
        (CachingUserService.fetchUsers (⟨[], [], 1000⟩ : CacheState Nat) 0 1 10
          (.ok (some ⟨[7], ⟨1, 10, "abc", "1.0"⟩⟩))).state
        (0 + 1000, getCacheKey 1 10))
      1100 1 10 (.ok (some ⟨[7], ⟨1, 10, "abc", "1.0"⟩⟩))).networkCalled = true :=
  cacheExpiry_evicts_and_refetches Nat ⟨[], [], 1000⟩ 0 1100 1 10
    ⟨[7], ⟨1, 10, "abc", "1.0"⟩⟩ (.ok (some ⟨[7], ⟨1, 10, "abc", "1.0"⟩⟩)) (by decide)

/-- C4: the claim says invalidation/clear releases the pending expiry timer.
The source stores no `setTimeout` handle and never calls `clearTimeout`, so
the timer stays pending: after `fetchUsers(1,10)` at t=0 (TTL 100),
`invalidatePage(1,10)` at t=10, and a refetch at t=20 (whose entry should
live until t=120), the stale timer is still scheduled for t=100 and firing
it evicts the fresh entry early.  `clearCache` likewise leaves the timer
pending.  This demonstrates the dangling eviction the spec requires the
implementation to avoid. -/
theorem invalidation_leaves_dangling_timer :
    (CachingUserService.invalidatePage
      (CachingUserService.fetchUsers (⟨[], [], 100⟩ : CacheState Nat) 0 1 10
        (.ok (some ⟨[1], ⟨1, 10, "abc", "1.0"⟩⟩))).state 1 10).timers =
      [(100, getCacheKey 1 10)] ∧
    (CachingUserService.clearCache
      (CachingUserService.fetchUsers (⟨[], [], 100⟩ : CacheState Nat) 0 1 10
        (.ok (some ⟨[1], ⟨1, 10, "abc", "1.0"⟩⟩))).state).timers =
      [(100, getCacheKey 1 10)] ∧
    mapHas (CachingUserService.fetchUsers
      (CachingUserService.invalidatePage
        (CachingUserService.fetchUsers (⟨[], [], 100⟩ : CacheState Nat) 0 1 10
          (.ok (some ⟨[1], ⟨1, 10, "abc", "1.0"⟩⟩))).state 1 10)
      20 1 10 (.ok (some ⟨[2], ⟨1, 10, "abc", "1.0"⟩⟩))).state.cache
      (getCacheKey 1 10) = true ∧
    (CachingUserService.fetchUsers
      (CachingUserService.invalidatePage
        (CachingUserService.fetchUsers (⟨[], [], 100⟩ : CacheState Nat) 0 1 10
          (.ok (some ⟨[1], ⟨1, 10, "abc", "1.0"⟩⟩))).state 1 10)
      20 1 10 (.ok (some ⟨[2], ⟨1, 10, "abc", "1.0"⟩⟩))).state.timers =
      [(100, getCacheKey 1 10), (120, getCacheKey 1 10)] ∧
    mapHas (CachingUserService.fireTimer
      (CachingUserService.fetchUsers
        (CachingUserService.invalidatePage
          (CachingUserService.fetchUsers (⟨[], [], 100⟩ : CacheState Nat) 0 1 10
            (.ok (some ⟨[1], ⟨1, 10, "abc", "1.0"⟩⟩))).state 1 10)
        20 1 10 (.ok (some ⟨[2], ⟨1, 10, "abc", "1.0"⟩⟩))).state
      (100, getCacheKey 1 10)).cache (getCacheKey 1 10) = false := by
  decide

/-- C7: a non-success HTTP status makes `UserService.fetchUsers` fail with
the thrown `Error` whose message embeds the numeric status (the message
determines the status uniquely), and the caching decorator propagates that
failure to the caller after the single delegate invocation — no retry. -/
theorem httpError_propagated_no_retry (U : Type) (status : Nat)
    (body : Except JsValue (ApiResponse U)) (st : CacheState U)
    (now page results : Nat)
    (hmiss : mapHas st.cache (getCacheKey page results) = false) :
    UserService.fetchUsers (FetchOutcome.response false status body : FetchOutcome U) =
      .error ⟨"HTTP error! status: " ++ toString status⟩ ∧
    (∀ s₁ s₂ : Nat, ("HTTP error! status: " ++ toString s₁ : String) =
        "HTTP error! status: " ++ toString s₂ → s₁ = s₂) ∧
    (CachingUserService.fetchUsers st now page results
      (UserService.fetchUsers (FetchOutcome.response false status body : FetchOutcome U))).result =
      .error ⟨"HTTP error! status: " ++ toString status⟩ ∧
    (CachingUserService.fetchUsers st now page results
      (UserService.fetchUsers (FetchOutcome.response false status body : FetchOutcome U))).networkCalled =
      true := by
  refine ⟨rfl, ?_, ?_, ?_⟩
  · intro s₁ s₂ h
    have hd := congrArg String.data h
    simp only [String.data_append] at hd
    exact repr_data_injective s₁ s₂ (List.append_cancel_left hd)
  · simp [CachingUserService.fetchUsers, UserService.fetchUsers,
      UserService.catchClause, hmiss]
  · simp [CachingUserService.fetchUsers, UserService.fetchUsers,
      UserService.catchClause, hmiss]

theorem httpError_propagated_no_retry_witness :
    UserService.fetchUsers (FetchOutcome.response false 500
        (.error (.otherVal "")) : FetchOutcome Nat) =
      .error ⟨"HTTP error! status: " ++ toString 500⟩ ∧
    (∀ s₁ s₂ : Nat, ("HTTP error! status: " ++ toString s₁ : String) =
        "HTTP error! status: " ++ toString s₂ → s₁ = s₂) ∧
    (CachingUserService.fetchUsers (⟨[], [], 100⟩ : CacheState Nat) 0 1 10
      (UserService.fetchUsers (FetchOutcome.response false 500
        (.error (.otherVal "")) : FetchOutcome Nat))).result =
      .error ⟨"HTTP error! status: " ++ toString 500⟩ ∧
    (CachingUserService.fetchUsers (⟨[], [], 100⟩ : CacheState Nat) 0 1 10
      (UserService.fetchUsers (FetchOutcome.response false 500
        (.error (.otherVal "")) : FetchOutcome Nat))).networkCalled = true :=
  httpError_propagated_no_retry Nat 500 (.error (.otherVal "")) ⟨[], [], 100⟩ 0 1 10
    (by decide)

/-! ### Debounce helpers -/

/-- The last call of a session. -/
def lastCall? {α : Type} : List (Nat × α) → Option (Nat × α)
  | [] => none
  | [c] => some c
  | _ :: c' :: rest => lastCall? (c' :: rest)

/-- Call times are strictly increasing. -/
def timesSorted {α : Type} : List (Nat × α) → Bool
  | (t, _) :: (t', a') :: rest => decide (t < t') && timesSorted ((t', a') :: rest)
  | _ => true

theorem timesSorted_tail {α : Type} (c : Nat × α) (l : List (Nat × α))
    (h : timesSorted (c :: l) = true) : timesSorted l = true := by
  obtain ⟨t, a⟩ := c
  cases l with
  | nil => rfl
  | cons c' rest =>
    obtain ⟨t', a'⟩ := c'
    simp only [timesSorted, Bool.and_eq_true] at h
    exact h.2

theorem timesSorted_head_lt {α : Type} :
    ∀ (l : List (Nat × α)) (t : Nat) (a : α),
      timesSorted ((t, a) :: l) = true → ∀ p ∈ l, t < p.1 := by
  intro l
  induction l with
  | nil => intro t a _ p hp; simp at hp
  | cons q rest ih =>
    intro t a hs p hp
    obtain ⟨t', a'⟩ := q
    simp only [timesSorted, Bool.and_eq_true, decide_eq_true_eq] at hs
    rcases List.mem_cons.mp hp with rfl | hp'
    · exact hs.1
    · have := ih t' a' (by simpa [timesSorted] using hs.2) p hp'
      omega

theorem timesSorted_head_le {α : Type} (l : List (Nat × α)) (t : Nat) (a : α)
    (hs : timesSorted ((t, a) :: l) = true) :
    ∀ p ∈ (t, a) :: l, t ≤ p.1 := by
  intro p hp
  rcases List.mem_cons.mp hp with rfl | hp'
  · exact Nat.le_refl t
  · exact Nat.le_of_lt (timesSorted_head_lt l t a hs p hp')

theorem debounceRun_burst {α : Type} (wait : Nat) :
    ∀ (calls : List (Nat × α)) (tl : Nat) (al : α),
      isBurst wait calls = true → lastCall? calls = some (tl, al) →
      debounceRun wait calls = [(tl + wait, al)] := by
  intro calls
  induction calls with
  | nil => intro tl al _ hlast; simp [lastCall?] at hlast
  | cons c rest ih =>
    intro tl al hb hlast
    obtain ⟨t, a⟩ := c
    cases rest with
    | nil =>
      simp only [lastCall?, Option.some.injEq] at hlast
      rw [show ((t, a) : Nat × α) = (tl, al) from hlast]
      rfl
    | cons c' rest' =>
      obtain ⟨t', a'⟩ := c'
      simp only [isBurst, Bool.and_eq_true, decide_eq_true_eq] at hb
      have hnot : ¬ t + wait < t' := by omega
      simp only [debounceRun, if_neg hnot]
      exact ih tl al hb.2 (by simpa [lastCall?] using hlast)

theorem debounceRun_sound {α : Type} (wait : Nat) :
    ∀ calls : List (Nat × α), timesSorted calls = true →
      ∀ q ∈ debounceRun wait calls, ∃ p ∈ calls, q = (p.1 + wait, p.2) ∧
        ∀ p' ∈ calls, p'.1 ≤ p.1 + wait → p'.1 ≤ p.1 := by
  intro calls
  induction calls with
  | nil => intro _ q hq; simp [debounceRun] at hq
  | cons c rest ih =>
    intro hs q hq
    obtain ⟨t, a⟩ := c
    cases rest with
    | nil =>
      simp only [debounceRun, List.mem_singleton] at hq
      refine ⟨(t, a), List.mem_singleton.mpr rfl, hq, ?_⟩
      intro p' hp' _
      rcases List.mem_singleton.mp hp' with rfl
      exact Nat.le_refl t
    | cons c' rest' =>
      obtain ⟨t', a'⟩ := c'
      have hs' : timesSorted ((t', a') :: rest') = true := timesSorted_tail _ _ hs
      have hlt : ∀ p ∈ (t', a') :: rest', t < p.1 := timesSorted_head_lt _ t a hs
      have hle : ∀ p ∈ (t', a') :: rest', t' ≤ p.1 := timesSorted_head_le _ t' a' hs'
      by_cases hw : t + wait < t'
      · simp only [debounceRun, if_pos hw] at hq
        rcases List.mem_cons.mp hq with rfl | hq'
        · refine ⟨(t, a), List.mem_cons_self _ _, rfl, ?_⟩
          intro p' hp' hcle
          rcases List.mem_cons.mp hp' with rfl | hp''
          · exact Nat.le_refl t
          · have h1 := hle p' hp''
            omega
        · obtain ⟨p, hp, he, hmin⟩ := ih hs' q hq'
          refine ⟨p, List.mem_cons_of_mem _ hp, he, ?_⟩
          intro p' hp' hcle
          rcases List.mem_cons.mp hp' with rfl | hp''
          · have := hlt p hp
            omega
          · exact hmin p' hp'' hcle
      · simp only [debounceRun, if_neg hw] at hq
        obtain ⟨p, hp, he, hmin⟩ := ih hs' q hq
        refine ⟨p, List.mem_cons_of_mem _ hp, he, ?_⟩
        intro p' hp' hcle
        rcases List.mem_cons.mp hp' with rfl | hp''
        · have := hlt p hp
          omega
        · exact hmin p' hp'' hcle

/-- C8: the debounced handler is a trailing-edge debounce.  For a burst
(every call within `wait` of the previous one) exactly one invocation of
the wrapped function happens, `wait` after the burst's last call and with
that call's arguments.  In general (strictly time-ordered calls) every
invocation is some call delayed by exactly `wait` such that no other call
landed inside that call's wait window — each new call cancels the pending
invocation and restarts the window. -/
theorem debounce_trailing_edge (α : Type) (wait : Nat) :
    (∀ (calls : List (Nat × α)) (tl : Nat) (al : α),
      isBurst wait calls = true → lastCall? calls = some (tl, al) →
      debounceRun wait calls = [(tl + wait, al)]) ∧
    (∀ calls : List (Nat × α), timesSorted calls = true →
      ∀ q ∈ debounceRun wait calls, ∃ p ∈ calls, q = (p.1 + wait, p.2) ∧
        ∀ p' ∈ calls, p'.1 ≤ p.1 + wait → p'.1 ≤ p.1) :=
  ⟨debounceRun_burst wait, debounceRun_sound wait⟩

theorem debounce_trailing_edge_witness :
    debounceRun 5 [(0, 0), (5, 1), (9, 2)] = [(9 + 5, 2)] :=
  (debounce_trailing_edge Nat 5).1 [(0, 0), (5, 1), (9, 2)] 9 2 (by decide) (by decide)

/-- C10: `loadUsers` is a no-op while `loading` is set or `hasMore` is
false; a rejected fetch records the error and turns `hasMore` off, after
which any further `loadUsers` is a no-op until `retryLoading` resets
`hasMore`; and `currentPage` is incremented exactly when the fetch
succeeded with a non-empty `results`. -/
theorem loadUsers_guard_failure_paging (U : Type) (st : ListState U)
    (outcome : Except JsValue (Option (ApiResponse U))) :
    (st.loading = true ∨ st.hasMore = false → loadUsers st outcome = (st, false)) ∧
    (∀ v, outcome = .error v → st.loading = false → st.hasMore = true →
      (loadUsers st outcome).1.hasMore = false ∧
      (loadUsers st outcome).1.error = some (loadErrorMessage v) ∧
      (loadUsers st outcome).1.currentPage = st.currentPage ∧
      (∀ outcome', loadUsers (loadUsers st outcome).1 outcome' =
        ((loadUsers st outcome).1, false))) ∧
    ((loadUsers st outcome).1.currentPage = st.currentPage + 1 ↔
      st.loading = false ∧ st.hasMore = true ∧
      ∃ resp, outcome = .ok (some resp) ∧ resp.results ≠ []) ∧
    (retryLoading st outcome =
      loadUsers { st with error := none, hasMore := true } outcome) := by
  refine ⟨?_, ?_, ?_, rfl⟩
  · intro h
    have hguard : (st.loading || !st.hasMore) = true := by
      rcases h with h | h <;> simp [h]
    simp [loadUsers, hguard]
  · rintro v rfl hl hm
    simp [loadUsers, hl, hm]
  · obtain ⟨us, cp, ld, er, hsm⟩ := st
    cases ld with
    | true =>
      show cp = cp + 1 ↔ _
      constructor
      · intro h
        omega
      · rintro ⟨h, -, -⟩
        simp at h
    | false =>
      cases hsm with
      | false =>
        show cp = cp + 1 ↔ _
        constructor
        · intro h
          omega
        · rintro ⟨-, h, -⟩
          simp at h
      | true =>
        rcases outcome with v | (_ | resp)
        · show cp = cp + 1 ↔ _
          constructor
          · intro h
            omega
          · rintro ⟨-, -, resp, h, -⟩
            simp at h
        · show cp = cp + 1 ↔ _
          constructor
          · intro h
            omega
          · rintro ⟨-, -, resp, h, -⟩
            simp at h
        · by_cases hlen : resp.results.length = 0
          · have hnil : resp.results = [] := List.length_eq_zero.mp hlen
            have hval : loadUsers (⟨us, cp, false, er, true⟩ : ListState U)
                (.ok (some resp)) = (⟨us, cp, false, none, false⟩, true) := by
              simp [loadUsers, hlen]
            rw [hval]
            show cp = cp + 1 ↔ _
            constructor
            · intro h
              omega
            · rintro ⟨-, -, resp', h, hne⟩
              injection h with h1
              injection h1 with h2
              rw [← h2, hnil] at hne
              exact absurd rfl hne
          · have hval : loadUsers (⟨us, cp, false, er, true⟩ : ListState U)
                (.ok (some resp)) =
                (⟨us ++ resp.results, cp + 1, false, none, true⟩, true) := by
              simp [loadUsers, hlen]
            rw [hval]
            show cp + 1 = cp + 1 ↔ _
            constructor
            · intro _
              exact ⟨rfl, rfl, resp, rfl, fun hnil => hlen (by rw [hnil]; rfl)⟩
            · intro _
              rfl

theorem loadUsers_guard_failure_paging_witness :
    loadUsers (⟨[], 1, true, none, true⟩ : ListState Nat) (.ok none) =
      ((⟨[], 1, true, none, true⟩ : ListState Nat), false) :=
  (loadUsers_guard_failure_paging Nat ⟨[], 1, true, none, true⟩ (.ok none)).1
    (Or.inl rfl)

end InfiniteScroll
